import Mathlib

/-!
Verification of the go-opentype font codec core.

The definitions below are a shallow embedding of the Go sources of the
repository (package `opentype`): machine integers become `Nat` (unsigned)
or `Int` (signed) with explicit `% 2^w` at the points where Go wraps,
Go maps keyed by `int32` become functions `Int → Option Nat`, fallible
code returns `Option` or `Except`, and a byte file becomes a `List Nat`.
Each definition carries a comment naming the Go function it embeds.
-/

namespace OpenTypeSpec

/-- Two to the 32, the modulus of Go `uint32` arithmetic. -/
def u32Mod : Nat := 4294967296

/-- Two to the 16, the modulus of Go `uint16` arithmetic. -/
def u16Mod : Nat := 65536

/-- Go conversion of an unsigned value to `int32` (two's complement):
the key type of the glyph maps `map[int32]uint16` in `cmap.go`. -/
def i32 (n : Nat) : Int :=
  if n % u32Mod < 2147483648 then ((n % u32Mod : Nat) : Int)
  else ((n % u32Mod : Nat) : Int) - (u32Mod : Int)

/-- Interpretation of `i32` as a function: it is injective on `uint32` values,
so distinct character codes never collide as map keys. -/
theorem i32_inj {a b : Nat} (ha : a < u32Mod) (hb : b < u32Mod) :
    i32 a = i32 b → a = b := by
  intro h
  unfold i32 at h
  rw [Nat.mod_eq_of_lt ha, Nat.mod_eq_of_lt hb] at h
  unfold u32Mod at ha hb h
  split_ifs at h <;> omega

/-- A decoded character-to-glyph mapping, the embedding of the Go value
`map[int32]uint16` built by the `createCMap` methods in `cmap.go`. -/
def CMapFn : Type := Int → Option Nat

/-- The empty Go map (`make(map[int32]uint16)`). -/
def emptyCMap : CMapFn := fun _ => none

/-- A single Go map assignment `cmap[k] = v`. -/
def mapAssign (m : CMapFn) (k : Int) (v : Nat) : CMapFn :=
  fun q => if q = k then some v else m q

/-- Ascending loop `for j := start; ...; j++` inserting `cmap[int32(j)] = v j`
for the `n` codes `start, start+1, ..., start+n-1`.  Both format 4 and
format 12 `createCMap` loops are instances of this scheme. -/
def insertSeq (v : Nat → Nat) : Nat → Nat → CMapFn → CMapFn
  | _, 0, m => m
  | j, n + 1, m => insertSeq v (j + 1) n (mapAssign m (i32 j) (v j))

theorem insertSeq_apply (v : Nat → Nat) (j n : Nat) (m : CMapFn) (c : Nat)
    (hjn : j + n ≤ u32Mod) (hc : c < u32Mod) :
    insertSeq v j n m (i32 c) =
      if j ≤ c ∧ c < j + n then some (v c) else m (i32 c) := by
  induction n generalizing j m with
  | zero =>
    simp only [insertSeq]
    have h0 : ¬ (j ≤ c ∧ c < j + 0) := by omega
    rw [if_neg h0]
  | succ n ih =>
    simp only [insertSeq]
    rw [ih (j + 1) _ (by omega)]
    have hj : j < u32Mod := by omega
    by_cases hcj : c = j
    · subst hcj
      have h1 : ¬ (c + 1 ≤ c ∧ c < c + 1 + n) := by omega
      have h2 : c ≤ c ∧ c < c + (n + 1) := by omega
      simp [h1, h2, mapAssign]
    · have hne : i32 c ≠ i32 j := fun h => hcj (i32_inj hc hj h)
      by_cases hin : j + 1 ≤ c ∧ c < j + 1 + n
      · have h2 : j ≤ c ∧ c < j + (n + 1) := by omega
        simp [hin, h2]
      · have h2 : ¬ (j ≤ c ∧ c < j + (n + 1)) := by omega
        simp [hin, h2, mapAssign, hne]

/-! ## CMap format 12 (`EncodingRecordSubtableFormat12`, cmap.go) -/

/-- One sequential map group of a format 12 subtable, fields as parsed by
`parseEncodingRecordSubtableFormat12` (all `uint32`). -/
structure SequentialMapGroup where
  startCharCode : Nat
  endCharCode : Nat
  startGlyphID : Nat

/-- Glyph id computed in the format 12 loop body:
`d := j - startCharCode; gid := startGlyphID + d` in `uint32` arithmetic,
then `uint16(gid)` truncation on map insertion. -/
def groupGID (g : SequentialMapGroup) (j : Nat) : Nat :=
  ((g.startGlyphID + (j - g.startCharCode)) % u32Mod) % u16Mod

/-- Embedding of `EncodingRecordSubtableFormat12.createCMap`: for each group
in order, for each `j` with `startCharCode <= j < endCharCode` (strict upper
bound, `j < st.endCharCode[i]` in the source), set `cmap[int32(j)]` to the
truncated glyph id. -/
def createCMap12 (groups : List SequentialMapGroup) : CMapFn :=
  groups.foldl
    (fun m g =>
      insertSeq (groupGID g) g.startCharCode (g.endCharCode - g.startCharCode) m)
    emptyCMap

/-- Whether a group is well formed as parsed: its two character-code fields
are `uint32` values. -/
def groupWF (g : SequentialMapGroup) : Prop :=
  g.startCharCode < u32Mod ∧ g.endCharCode ≤ u32Mod

/-- Two groups cover disjoint character-code ranges. -/
def groupsDisjoint (a b : SequentialMapGroup) : Prop :=
  a.endCharCode ≤ b.startCharCode ∨ b.endCharCode ≤ a.startCharCode

theorem createCMap12_go (groups : List SequentialMapGroup) (m : CMapFn)
    (hw : ∀ g ∈ groups, groupWF g)
    (hdisj : groups.Pairwise groupsDisjoint)
    (c : Nat) (hc : c < u32Mod) :
    (∀ g ∈ groups, g.startCharCode ≤ c → c < g.endCharCode →
      (groups.foldl
        (fun m g =>
          insertSeq (groupGID g) g.startCharCode (g.endCharCode - g.startCharCode) m)
        m) (i32 c) = some (groupGID g c))
    ∧ ((∀ g ∈ groups, ¬ (g.startCharCode ≤ c ∧ c < g.endCharCode)) →
      (groups.foldl
        (fun m g =>
          insertSeq (groupGID g) g.startCharCode (g.endCharCode - g.startCharCode) m)
        m) (i32 c) = m (i32 c)) := by
  induction groups generalizing m with
  | nil => simp
  | cons g gs ih =>
    have hwg : groupWF g := hw g (by simp)
    have hwgs : ∀ x ∈ gs, groupWF x := fun x hx => hw x (by simp [hx])
    have hdg : ∀ x ∈ gs, groupsDisjoint g x := by
      intro x hx
      exact (List.pairwise_cons.mp hdisj).1 x hx
    have hdgs : gs.Pairwise groupsDisjoint := (List.pairwise_cons.mp hdisj).2
    have hbound : g.startCharCode + (g.endCharCode - g.startCharCode) ≤ u32Mod := by
      rcases hwg with ⟨h1, h2⟩; omega
    constructor
    · intro t ht hle hlt
      rcases List.mem_cons.mp ht with hteq | htgs
      · subst hteq
        have hnot : ∀ x ∈ gs, ¬ (x.startCharCode ≤ c ∧ c < x.endCharCode) := by
          intro x hx hcx
          rcases hdg x hx with h | h <;> unfold groupsDisjoint at * <;> omega
        simp only [List.foldl_cons]
        rw [(ih (insertSeq (groupGID t) t.startCharCode
          (t.endCharCode - t.startCharCode) m) hwgs hdgs).2 hnot]
        rw [insertSeq_apply _ _ _ _ _ hbound hc]
        have hin : t.startCharCode ≤ c ∧
            c < t.startCharCode + (t.endCharCode - t.startCharCode) := by omega
        rw [if_pos hin]
      · simp only [List.foldl_cons]
        exact (ih _ hwgs hdgs).1 t htgs hle hlt
    · intro hnone
      have hng : ¬ (g.startCharCode ≤ c ∧ c < g.endCharCode) := hnone g (by simp)
      have hngs : ∀ x ∈ gs, ¬ (x.startCharCode ≤ c ∧ c < x.endCharCode) := by
        intro x hx; exact hnone x (by simp [hx])
      simp only [List.foldl_cons]
      rw [(ih (insertSeq (groupGID g) g.startCharCode
        (g.endCharCode - g.startCharCode) m) hwgs hdgs).2 hngs]
      rw [insertSeq_apply _ _ _ _ _ hbound hc]
      have hout : ¬ (g.startCharCode ≤ c ∧
          c < g.startCharCode + (g.endCharCode - g.startCharCode)) := by omega
      rw [if_neg hout]

/-- C6: for every parsed format 12 subtable (well-formed `uint32` groups,
pairwise-disjoint ranges, glyph ids within `uint16`), the decoded mapping
contains exactly the codes `startCharCode <= c < endCharCode` of some group
(exclusive upper bound), each mapped to `startGlyphID + (c - startCharCode)`. -/
theorem cmap12_group_mapping (groups : List SequentialMapGroup)
    (hw : ∀ g ∈ groups, groupWF g)
    (hdisj : groups.Pairwise groupsDisjoint)
    (hglyph : ∀ g ∈ groups, g.startGlyphID + (g.endCharCode - g.startCharCode) ≤ u16Mod)
    (c : Nat) (hc : c < u32Mod) :
    (∀ g ∈ groups, g.startCharCode ≤ c → c < g.endCharCode →
      createCMap12 groups (i32 c) = some (g.startGlyphID + (c - g.startCharCode)))
    ∧ ((∀ g ∈ groups, ¬ (g.startCharCode ≤ c ∧ c < g.endCharCode)) →
      createCMap12 groups (i32 c) = none) := by
  have h := createCMap12_go groups emptyCMap hw hdisj c hc
  constructor
  · intro g hg hle hlt
    have hval : groupGID g c = g.startGlyphID + (c - g.startCharCode) := by
      have hb := hglyph g hg
      have h1 : g.startGlyphID + (c - g.startCharCode) < u16Mod ∨
          g.startGlyphID + (c - g.startCharCode) = u16Mod := by omega
      unfold groupGID
      have hlt2 : g.startGlyphID + (c - g.startCharCode) < u32Mod := by
        unfold u16Mod at hb; unfold u32Mod; omega
      rw [Nat.mod_eq_of_lt hlt2]
      rcases h1 with h1 | h1
      · exact Nat.mod_eq_of_lt h1
      · unfold u16Mod at *; omega
    rw [← hval]
    exact h.1 g hg hle hlt
  · intro hnone
    have := h.2 hnone
    unfold createCMap12
    rw [this]
    rfl

/-- Witness for C6, the boundary scenario of the specification: the group
`{startCharCode = 0x10000, endCharCode = 0x10005, startGlyphID = 100}` decodes
to exactly the five entries `0x10000 -> 100` through `0x10004 -> 104`, and
`0x10005` (the exclusive upper bound) is unmapped. -/
theorem cmap12_group_mapping_witness :
    (createCMap12 [⟨65536, 65541, 100⟩] (i32 65536) = some 100
      ∧ createCMap12 [⟨65536, 65541, 100⟩] (i32 65540) = some 104
      ∧ createCMap12 [⟨65536, 65541, 100⟩] (i32 65541) = none) := by
  have h1 := cmap12_group_mapping [⟨65536, 65541, 100⟩]
    (by intro g hg; simp at hg; subst hg; constructor <;> decide)
    (by simp) (by intro g hg; simp at hg; subst hg; decide) 65536 (by decide)
  have h2 := cmap12_group_mapping [⟨65536, 65541, 100⟩]
    (by intro g hg; simp at hg; subst hg; constructor <;> decide)
    (by simp) (by intro g hg; simp at hg; subst hg; decide) 65540 (by decide)
  have h3 := cmap12_group_mapping [⟨65536, 65541, 100⟩]
    (by intro g hg; simp at hg; subst hg; constructor <;> decide)
    (by simp) (by intro g hg; simp at hg; subst hg; decide) 65541 (by decide)
  refine ⟨?_, ?_, ?_⟩
  · have := h1.1 ⟨65536, 65541, 100⟩ (by simp) (by decide) (by decide)
    simpa using this
  · have := h2.1 ⟨65536, 65541, 100⟩ (by simp) (by decide) (by decide)
    simpa using this
  · exact h3.2 (by intro g hg; simp at hg; subst hg; decide)

/-! ## CMap format 4 (`EncodingRecordSubtableFormat4`, cmap.go) -/

/-- One segment of a format 4 subtable, as assembled by
`parseEncodingRecordSubtableFormat4` from the four parallel arrays:
`endCount`, `startCount` are `uint16`, `idDelta` is `int16`,
`idRangeOffset` is `uint16`, and `idRangeOffsetAddress` is the file
position at which the segment's `idRangeOffset` field was read. -/
structure Format4Segment where
  endCount : Nat
  startCount : Nat
  idDelta : Int
  idRangeOffset : Nat
  idRangeOffsetAddress : Nat

/-- Embedding of `EncodingRecordSubtableFormat4.getGID`.  The byte source is
abstracted as `readU16`, the big-endian `uint16` read at a byte position
(read errors are not modeled; no theorem below depends on the branch that
reads the file).  For `idRangeOffset == 0` the source computes
`uint16(int32(c) + int32(idDelta))`, that is `(c + idDelta) mod 2^16`;
otherwise it reads `v` at `idRangeOffset + 2*(c - startCount) + address`
and returns `0` if `v == 0`, else `uint16((v + idDelta) % 65536)`. -/
def getGID (readU16 : Nat → Nat) (s : Format4Segment) (c : Nat) : Nat :=
  if s.idRangeOffset = 0 then (((c : Int) + s.idDelta).emod 65536).toNat
  else
    let v := readU16 (s.idRangeOffset + 2 * (c - s.startCount) + s.idRangeOffsetAddress)
    if v = 0 then 0 else (((v : Int) + s.idDelta).emod 65536).toNat

/-- Embedding of `EncodingRecordSubtableFormat4.createCMap`: iterate the
segments in order, stopping (`break`) at the first segment whose `endCount`
is `0xFFFF`; for every other segment insert `cmap[int32(c)] = getGID(i, c)`
for each `c` from `startCount` to `endCount` inclusive. -/
def createCMap4 (readU16 : Nat → Nat) : List Format4Segment → CMapFn → CMapFn
  | [], m => m
  | s :: rest, m =>
    if s.endCount = 65535 then m
    else
      createCMap4 readU16 rest
        (insertSeq (getGID readU16 s) s.startCount (s.endCount + 1 - s.startCount) m)

/-- Whether a non-sentinel segment is well formed as parsed: `uint16` fields
and not itself a sentinel. -/
def segWF (s : Format4Segment) : Prop :=
  s.endCount < 65535 ∧ s.startCount < 65536

/-- Two segments cover disjoint inclusive character ranges. -/
def segsDisjoint (a b : Format4Segment) : Prop :=
  a.endCount < b.startCount ∨ b.endCount < a.startCount

theorem createCMap4_go (readU16 : Nat → Nat) (segs : List Format4Segment) (m : CMapFn)
    (hw : ∀ s ∈ segs, segWF s)
    (hdisj : segs.Pairwise segsDisjoint)
    (c : Nat) (hc : c < u32Mod) :
    (∀ s ∈ segs, s.startCount ≤ c → c ≤ s.endCount →
      createCMap4 readU16 segs m (i32 c) = some (getGID readU16 s c))
    ∧ ((∀ s ∈ segs, ¬ (s.startCount ≤ c ∧ c ≤ s.endCount)) →
      createCMap4 readU16 segs m (i32 c) = m (i32 c)) := by
  induction segs generalizing m with
  | nil => simp [createCMap4]
  | cons s rest ih =>
    have hws : segWF s := hw s (by simp)
    have hwrest : ∀ x ∈ rest, segWF x := fun x hx => hw x (by simp [hx])
    have hds : ∀ x ∈ rest, segsDisjoint s x := by
      intro x hx
      exact (List.pairwise_cons.mp hdisj).1 x hx
    have hdrest : rest.Pairwise segsDisjoint := (List.pairwise_cons.mp hdisj).2
    have hnotsent : ¬ s.endCount = 65535 := by
      rcases hws with ⟨h1, _⟩; omega
    have hbound : s.startCount + (s.endCount + 1 - s.startCount) ≤ u32Mod := by
      rcases hws with ⟨h1, h2⟩; unfold u32Mod; omega
    constructor
    · intro t ht hle hlt
      rcases List.mem_cons.mp ht with hteq | htrest
      · subst hteq
        have hnot : ∀ x ∈ rest, ¬ (x.startCount ≤ c ∧ c ≤ x.endCount) := by
          intro x hx hcx
          rcases hds x hx with h | h <;> unfold segsDisjoint at * <;> omega
        simp only [createCMap4, if_neg hnotsent]
        rw [(ih (insertSeq (getGID readU16 t) t.startCount
          (t.endCount + 1 - t.startCount) m) hwrest hdrest).2 hnot]
        rw [insertSeq_apply _ _ _ _ _ hbound hc]
        have hin : t.startCount ≤ c ∧
            c < t.startCount + (t.endCount + 1 - t.startCount) := by omega
        rw [if_pos hin]
      · simp only [createCMap4, if_neg hnotsent]
        exact (ih _ hwrest hdrest).1 t htrest hle hlt
    · intro hnone
      have hng : ¬ (s.startCount ≤ c ∧ c ≤ s.endCount) := hnone s (by simp)
      have hnrest : ∀ x ∈ rest, ¬ (x.startCount ≤ c ∧ c ≤ x.endCount) := by
        intro x hx; exact hnone x (by simp [hx])
      simp only [createCMap4, if_neg hnotsent]
      rw [(ih (insertSeq (getGID readU16 s) s.startCount
        (s.endCount + 1 - s.startCount) m) hwrest hdrest).2 hnrest]
      rw [insertSeq_apply _ _ _ _ _ hbound hc]
      have hout : ¬ (s.startCount ≤ c ∧
          c < s.startCount + (s.endCount + 1 - s.startCount)) := by omega
      rw [if_neg hout]

theorem createCMap4_stops_at_sentinel (readU16 : Nat → Nat)
    (init : List Format4Segment) (sent : Format4Segment) (m : CMapFn)
    (hsent : sent.endCount = 65535)
    (hinit : ∀ s ∈ init, s.endCount ≠ 65535) :
    createCMap4 readU16 (init ++ [sent]) m = createCMap4 readU16 init m := by
  induction init generalizing m with
  | nil => simp [createCMap4, hsent]
  | cons s rest ih =>
    have hs : s.endCount ≠ 65535 := hinit s (by simp)
    have hrest : ∀ x ∈ rest, x.endCount ≠ 65535 := fun x hx => hinit x (by simp [hx])
    simp only [List.cons_append, createCMap4, if_neg hs]
    exact ih _ hrest

/-- C7: for every parsed format 4 subtable whose segments before the final
sentinel are well formed (`uint16` fields, `endCount < 0xFFFF`) and pairwise
disjoint, every segment with `idRangeOffset == 0` maps each code
`startCount <= c <= endCount` to `(c + idDelta) mod 65536`, and the final
sentinel segment (`endCount == 0xFFFF`) contributes no mapping entries:
decoding the full segment list equals decoding the list without it. -/
theorem cmap4_segment_mapping (readU16 : Nat → Nat)
    (init : List Format4Segment) (sent : Format4Segment)
    (hsent : sent.endCount = 65535)
    (hw : ∀ s ∈ init, segWF s)
    (hdisj : init.Pairwise segsDisjoint) :
    (∀ s ∈ init, s.idRangeOffset = 0 → ∀ c, s.startCount ≤ c → c ≤ s.endCount →
      createCMap4 readU16 (init ++ [sent]) emptyCMap (i32 c) =
        some (((c : Int) + s.idDelta).emod 65536).toNat)
    ∧ createCMap4 readU16 (init ++ [sent]) emptyCMap =
        createCMap4 readU16 init emptyCMap := by
  have hinit : ∀ s ∈ init, s.endCount ≠ 65535 := by
    intro s hs
    rcases hw s hs with ⟨h1, _⟩; omega
  have hstop := createCMap4_stops_at_sentinel readU16 init sent emptyCMap hsent hinit
  refine ⟨?_, hstop⟩
  intro s hs hro c hle hlt
  have hc : c < u32Mod := by
    rcases hw s hs with ⟨h1, _⟩; unfold u32Mod; omega
  rw [hstop]
  have := (createCMap4_go readU16 init emptyCMap hw hdisj c hc).1 s hs hle hlt
  rw [this]
  unfold getGID
  rw [if_pos hro]

/-- Witness for C7, the boundary scenario of the specification: the segment
`{startCode = 0x20, endCode = 0x7E, idDelta = -29, idRangeOffset = 0}`
followed by the `0xFFFF` sentinel maps `c = 0x41` to glyph `36`, and the
sentinel contributes nothing. -/
theorem cmap4_segment_mapping_witness :
    (createCMap4 (fun _ => 0) [⟨126, 32, -29, 0, 0⟩, ⟨65535, 65535, 1, 0, 0⟩]
        emptyCMap (i32 65) = some 36)
    ∧ createCMap4 (fun _ => 0) [⟨126, 32, -29, 0, 0⟩, ⟨65535, 65535, 1, 0, 0⟩]
        emptyCMap = createCMap4 (fun _ => 0) [⟨126, 32, -29, 0, 0⟩] emptyCMap := by
  have h := cmap4_segment_mapping (fun _ => 0) [⟨126, 32, -29, 0, 0⟩]
    ⟨65535, 65535, 1, 0, 0⟩ (by decide)
    (by intro s hs; simp at hs; subst hs; constructor <;> decide)
    (by simp)
  constructor
  · have h1 := h.1 ⟨126, 32, -29, 0, 0⟩ (by simp) (by decide) 65 (by decide) (by decide)
    simp only [List.singleton_append] at h1
    rw [h1]
    decide
  · have h2 := h.2
    simp only [List.singleton_append] at h2
    exact h2

/-! ## Tables and glyph subsetting (`font.go`, `loca.go`, `hmtx.go`, glyf source)

The `Font` structure below embeds the fields of `Font` in `font.go` that the
subsetting path reads or writes.  `Name`, `CMap`, `Cvt`, `Fpgm`, `Prep` are
carried over by `FilterGlyf` without being read or written, and no claim about
subsetting mentions them, so they are not modeled here. -/

/-- Embedding of `Maxp` (maxp source file); `Version` is a `Fixed` (signed),
all other fields are `uint16`. -/
structure Maxp where
  version : Int
  numGlyphs : Nat
  maxPoints : Nat
  maxContours : Nat
  maxCompositePoints : Nat
  maxCompositeContours : Nat
  maxZones : Nat
  maxTwilightPoints : Nat
  maxStorage : Nat
  maxFunctionDefs : Nat
  maxInstructionDefs : Nat
  maxStackElements : Nat
  maxSizeOfInstructions : Nat
  maxComponentElements : Nat
  maxComponentDepth : Nat
deriving DecidableEq

/-- Embedding of `Hhea` (hhea source file). -/
structure Hhea where
  majorVersion : Nat
  minorVersion : Nat
  ascender : Int
  descender : Int
  lineGap : Int
  advanceWidthMax : Nat
  minLeftSideBearing : Int
  minRightSideBearing : Int
  xMaxExtent : Int
  caretSlopeRise : Int
  caretSlopeRun : Int
  caretOffset : Int
  reserved1 : Int
  reserved2 : Int
  reserved3 : Int
  reserved4 : Int
  metricDataFormat : Int
  numberOfHMetrics : Nat
deriving DecidableEq

/-- Embedding of `Head` (head.go). -/
structure Head where
  majorVersion : Nat
  minorVersion : Nat
  fontRevision : Int
  checkSumAdjustment : Nat
  magicNumber : Nat
  flags : Nat
  unitsPerEm : Nat
  created : Int
  modified : Int
  xMin : Int
  yMin : Int
  xMax : Int
  yMax : Int
  macStyle : Nat
  lowestRecPPEM : Nat
  fontDirectionHint : Int
  indexToLocFormat : Int
  glyphDataFormat : Int
deriving DecidableEq

/-- Embedding of `LongHorMetric` (hmtx.go): `AdvanceWidth uint16`, `Lsb int16`. -/
structure LongHorMetric where
  advanceWidth : Nat
  lsb : Int
deriving DecidableEq

/-- Embedding of `Hmtx` (hmtx.go). -/
structure Hmtx where
  hMetrics : List LongHorMetric
  leftSideBearings : List Int
deriving DecidableEq

/-- Embedding of `Loca` (loca.go). -/
structure Loca where
  indexToLocFormat : Int
  offsetsShort : List Nat
  offsetsLong : List Nat
deriving DecidableEq

/-- Embedding of `Glyf` (glyf source file): a list of per-glyph byte slices. -/
structure Glyf where
  data : List (List Nat)
deriving DecidableEq

/-- Embedding of `Font` (font.go) restricted to the tables the subsetting
path reads or writes (see the section comment). -/
structure Font where
  head : Head
  hhea : Hhea
  maxp : Maxp
  hmtx : Hmtx
  loca : Loca
  glyf : Glyf
deriving DecidableEq

/-- Go `uint16` subtraction `a - b` (wrapping), used for
`font.Maxp.NumGlyphs - 1` in `FilterGlyf`. -/
def goSub16 (a b : Nat) : Nat := (a % u16Mod + u16Mod - b % u16Mod) % u16Mod

/-- Embedding of `Loca.IsShort`: `0 == l.indexToLocFormat`. -/
def Loca.isShort (l : Loca) : Bool := l.indexToLocFormat == 0

/-- Embedding of `Loca.Len`. -/
def Loca.len (l : Loca) : Nat :=
  if l.isShort then l.offsetsShort.length else l.offsetsLong.length

/-- Embedding of `Loca.Get`: the short form stores the true offset divided
by two.  The Go code indexes the slice directly (panicking out of range);
the embedding totalizes with default `0`, and every use below stays in range. -/
def Loca.get (l : Loca) (i : Nat) : Nat :=
  if l.isShort then 2 * l.offsetsShort.getD i 0 else l.offsetsLong.getD i 0

/-- Embedding of `Glyf.filter`: `new.data[i] = g.data[gid]`.  The Go code
indexes `g.data` directly; `FilterGlyf` validates every gid against
`maxp.NumGlyphs` first, and the embedding totalizes with default `[]`. -/
def Glyf.filter (g : Glyf) (f : List Nat) : Glyf :=
  ⟨f.map (fun gid => g.data.getD gid [])⟩

/-- Running-offset loop of `Glyf.generateLoca`: emits one offset per slice
and the final total. -/
def runningOffsets : List (List Nat) → Nat → List Nat
  | [], off => [off]
  | d :: ds, off => off :: runningOffsets ds (off + d.length)

/-- Embedding of `Glyf.generateLoca`: a long-format loca (`indexToLocFormat
= 1`) whose entries are the running byte offsets over the glyf slices plus
a final total entry. -/
def Glyf.generateLoca (g : Glyf) : Loca :=
  ⟨1, [], runningOffsets g.data 0⟩

/-- Embedding of `Hmtx.filter` (hmtx source file).  `numHM` is one past the
last position whose gid lies in the paired region (`gid < len(hMetrics)`).
Positions before `numHM` carry the source pair (or synthesize
`(0, leftSideBearings[gid - th])` for gids past the paired region); the rest
append `leftSideBearings[gid - th]`.  Indexing is totalized with defaults,
matching the Go code on all in-range inputs. -/
def Hmtx.filter (h : Hmtx) (f : List Nat) : Hmtx :=
  let th := h.hMetrics.length
  let numHM := f.enum.foldl (fun (acc : Nat) (p : Nat × Nat) => if p.2 < th then p.1 + 1 else acc) 0
  f.enum.foldl
    (fun (acc : Hmtx) (p : Nat × Nat) =>
      if p.1 < numHM then
        if p.2 < th then
          ⟨acc.hMetrics ++ [h.hMetrics.getD p.2 ⟨0, 0⟩], acc.leftSideBearings⟩
        else
          ⟨acc.hMetrics ++ [⟨0, h.leftSideBearings.getD (p.2 - th) 0⟩],
            acc.leftSideBearings⟩
      else
        ⟨acc.hMetrics, acc.leftSideBearings ++ [h.leftSideBearings.getD (p.2 - th) 0]⟩)
    ⟨[], []⟩

/-- The subset error of `FilterGlyf`: "request(%d) exceeds maximum glyph
id(%d)". -/
inductive SubsetError where
  | glyphIndexOutOfRange (requested : Nat) (max : Nat)
deriving DecidableEq

/-- The `maxGID` accumulation loop of `FilterGlyf`. -/
def maxGIDOf (filter : List Nat) : Nat :=
  filter.foldl (fun m gid => if m < gid then gid else m) 0

/-- Embedding of `Font.FilterGlyf` (font.go lines 152-187).

Two Go behaviors are made explicit:

* `filter[0]` is read before any validation; on an empty slice Go panics
  with an index-out-of-range, which the embedding models as the outer
  `Option` being `none` (neither a font nor a `SubsetError`).

* `new := &Font{...}` copies the table POINTERS of the source font, and the
  final assignments `new.Maxp.NumGlyphs = ...`,
  `new.Hhea.NumberOfHMetrics = ...`, `new.Head.IndexToLocFormat = ...`
  write through pointers shared with the source font, while
  `new.Glyf`, `new.Loca`, `new.Hmtx` are reassigned to freshly built tables
  (the source font keeps its own).  The embedding therefore returns a pair
  `(new font, source font as observable after the call)`: the second
  component has the mutated `maxp`, `hhea` and `head` and the original
  `hmtx`, `loca`, `glyf`. -/
def Font.filterGlyf (font : Font) (filter : List Nat) :
    Option (Except SubsetError (Font × Font)) :=
  match filter.head? with
  | none => none
  | some f0 =>
    let f := (if f0 = 0 then ([] : List Nat) else [f0]) ++ filter
    let maxGID := maxGIDOf filter
    if maxGID > goSub16 font.maxp.numGlyphs 1 then
      some (Except.error
        (SubsetError.glyphIndexOutOfRange maxGID (goSub16 font.maxp.numGlyphs 1)))
    else
      let newGlyf := font.glyf.filter f
      let newLoca := newGlyf.generateLoca
      let newHmtx := font.hmtx.filter f
      let newMaxp := { font.maxp with numGlyphs := f.length % u16Mod }
      let newHhea := { font.hhea with numberOfHMetrics := newHmtx.hMetrics.length % u16Mod }
      let newHead := { font.head with indexToLocFormat := newLoca.indexToLocFormat }
      some (Except.ok
        (⟨newHead, newHhea, newMaxp, newHmtx, newLoca, newGlyf⟩,
         { font with head := newHead, hhea := newHhea, maxp := newMaxp }))

/-- Projection: the source font as observable after a successful
`FilterGlyf` call. -/
def sourceAfter (r : Option (Except SubsetError (Font × Font))) : Option Font :=
  match r with
  | some (Except.ok p) => some p.2
  | _ => none

/-- Projection: the new font of a successful `FilterGlyf` call. -/
def newFontOf (r : Option (Except SubsetError (Font × Font))) : Option Font :=
  match r with
  | some (Except.ok p) => some p.1
  | _ => none

/-- A concrete parsed font used as test input: three glyphs
(`maxp.numGlyphs = 3`), three paired metrics (`hhea.numberOfHMetrics = 3`),
short loca (`head.indexToLocFormat = 0`) with four entries, and four glyf
slices (one per loca entry, as `parseGlyf` produces). -/
def fontEx : Font :=
  ⟨⟨1, 0, 65536, 0, 2981146554, 0, 1000, 0, 0, 0, 0, 0, 0, 0, 0, 0, 0, 0⟩,
   ⟨1, 0, 800, -200, 0, 700, 0, 0, 0, 0, 0, 0, 0, 0, 0, 0, 0, 3⟩,
   ⟨65536, 3, 0, 0, 0, 0, 2, 0, 0, 0, 0, 0, 0, 0, 0⟩,
   ⟨[⟨500, 0⟩, ⟨600, 10⟩, ⟨700, -5⟩], []⟩,
   ⟨0, [0, 3, 7, 9], []⟩,
   ⟨[[1, 2, 3, 4, 5, 6], [7, 8], [9, 9, 9, 9], []]⟩⟩

/-- C3: FilterGlyf does NOT leave the source font unchanged.  `new :=
&Font{...}` copies table pointers, so the assignments to
`new.Maxp.NumGlyphs`, `new.Hhea.NumberOfHMetrics` and
`new.Head.IndexToLocFormat` mutate the structs shared with the source font:
after `fontEx.FilterGlyf([0, 1])` the source font observes
`maxp.numGlyphs = 2`, `hhea.numberOfHMetrics = 2`,
`head.indexToLocFormat = 1` instead of its pre-call values `3`, `3`, `0`. -/
theorem filterGlyf_mutates_source_fields :
    (sourceAfter (fontEx.filterGlyf [0, 1])).map
      (fun s => (s.maxp.numGlyphs, s.hhea.numberOfHMetrics, s.head.indexToLocFormat))
      = some (2, 2, 1)
    ∧ (fontEx.maxp.numGlyphs, fontEx.hhea.numberOfHMetrics, fontEx.head.indexToLocFormat)
      = (3, 3, 0) := by
  constructor
  · rfl
  · rfl

/-- C8: for every accepted filter (and filter length in `uint16` range), the
new font's `maxp.numGlyphs` is `len(filter)` when `filter[0] == 0` and
`len(filter) + 1` when `filter[0] != 0`, because `FilterGlyf` prepends
`filter[0]` again when the caller did not put glyph 0 first. -/
theorem filterGlyf_numGlyphs (font : Font) (filter : List Nat)
    (hlen : filter.length + 1 < u16Mod)
    (r : Font × Font)
    (hok : font.filterGlyf filter = some (Except.ok r)) :
    r.1.maxp.numGlyphs =
      if filter.head? = some 0 then filter.length else filter.length + 1 := by
  cases filter with
  | nil => simp [Font.filterGlyf] at hok
  | cons f0 rest =>
    simp only [Font.filterGlyf, List.head?] at hok
    split at hok
    · simp at hok
    · simp only [Option.some.injEq, Except.ok.injEq] at hok
      subst hok
      by_cases h0 : f0 = 0
      · subst h0
        simp only [List.head?_cons, if_pos rfl]
        show (([] : List Nat) ++ (0 :: rest)).length % u16Mod = (0 :: rest).length
        simp only [List.nil_append, List.length_cons]
        simp only [List.length_cons] at hlen
        unfold u16Mod at hlen ⊢
        omega
      · have hne : ¬ ((f0 :: rest).head? = some 0) := by
          simp [List.head?_cons, h0]
        rw [if_neg hne]
        show ((if f0 = 0 then ([] : List Nat) else [f0]) ++ (f0 :: rest)).length % u16Mod
          = (f0 :: rest).length + 1
        rw [if_neg h0]
        simp only [List.length_append, List.length_cons, List.length_nil]
        simp only [List.length_cons] at hlen
        unfold u16Mod at hlen ⊢
        omega

/-- Witness for C8: filtering `fontEx` with `[0, 1]` (glyph 0 first) keeps
`maxp.numGlyphs` equal to the filter length, `2`. -/
theorem filterGlyf_numGlyphs_witness :
    (newFontOf (fontEx.filterGlyf [0, 1])).map (fun nf => nf.maxp.numGlyphs)
      = some 2 := by
  have hx : ∃ r, fontEx.filterGlyf [0, 1] = some (Except.ok r) := ⟨_, rfl⟩
  obtain ⟨r, hr⟩ := hx
  have h := filterGlyf_numGlyphs fontEx [0, 1] (by decide) r hr
  rw [hr]
  simp only [newFontOf, Option.map_some]
  simp only [List.head?_cons, if_pos rfl, List.length_cons, List.length_nil] at h
  simp [h]

/-- Helper: the fold computing `maxGID` dominates its initial value. -/
theorem foldlMax_init_le (l : List Nat) (a : Nat) :
    a ≤ l.foldl (fun m gid => if m < gid then gid else m) a := by
  induction l generalizing a with
  | nil => exact Nat.le_refl a
  | cons x xs ih =>
    simp only [List.foldl_cons]
    refine Nat.le_trans ?_ (ih (if a < x then x else a))
    split <;> omega

/-- Helper: the fold computing `maxGID` dominates every list element. -/
theorem foldlMax_mem_ge (l : List Nat) (a g : Nat) (hg : g ∈ l) :
    g ≤ l.foldl (fun m gid => if m < gid then gid else m) a := by
  induction l generalizing a with
  | nil => simp at hg
  | cons x xs ih =>
    simp only [List.foldl_cons]
    rcases List.mem_cons.mp hg with h | h
    · subst h
      refine Nat.le_trans ?_ (foldlMax_init_le xs (if a < g then g else a))
      split <;> omega
    · exact ih _ h

/-- Helper: the fold computing `maxGID` returns its initial value or a list
element. -/
theorem foldlMax_eq_init_or_mem (l : List Nat) (a : Nat) :
    l.foldl (fun m gid => if m < gid then gid else m) a = a
      ∨ l.foldl (fun m gid => if m < gid then gid else m) a ∈ l := by
  induction l generalizing a with
  | nil => exact Or.inl rfl
  | cons x xs ih =>
    simp only [List.foldl_cons]
    rcases ih (if a < x then x else a) with h | h
    · rw [h]
      by_cases hax : a < x
      · rw [if_pos hax]
        exact Or.inr (List.mem_cons_self x xs)
      · rw [if_neg hax]
        exact Or.inl rfl
    · exact Or.inr (List.mem_cons_of_mem x h)

/-- C9: for a font with `1 <= maxp.numGlyphs <= 0xFFFF` and a non-empty
filter, `FilterGlyf` fails with `GlyphIndexOutOfRange` carrying the largest
requested glyph id and the maximum valid id `numGlyphs - 1` exactly when
some requested id is `>= numGlyphs`; otherwise it returns a font. -/
theorem filterGlyf_out_of_range_iff (font : Font) (filter : List Nat)
    (hN1 : 1 ≤ font.maxp.numGlyphs) (hN2 : font.maxp.numGlyphs ≤ 65535)
    (hne : filter ≠ []) :
    ((∃ g ∈ filter, font.maxp.numGlyphs ≤ g) →
      font.filterGlyf filter = some (Except.error
        (SubsetError.glyphIndexOutOfRange (maxGIDOf filter)
          (font.maxp.numGlyphs - 1))))
    ∧ ((∀ g ∈ filter, g < font.maxp.numGlyphs) →
      ∃ r, font.filterGlyf filter = some (Except.ok r)) := by
  have hsub : goSub16 font.maxp.numGlyphs 1 = font.maxp.numGlyphs - 1 := by
    unfold goSub16 u16Mod
    omega
  cases filter with
  | nil => exact absurd rfl hne
  | cons f0 rest =>
    constructor
    · rintro ⟨g, hg, hgN⟩
      have hge : font.maxp.numGlyphs ≤ maxGIDOf (f0 :: rest) :=
        Nat.le_trans hgN (foldlMax_mem_ge _ _ _ hg)
      have hcond : maxGIDOf (f0 :: rest) > goSub16 font.maxp.numGlyphs 1 := by
        rw [hsub]; omega
      simp only [Font.filterGlyf, List.head?]
      rw [if_pos hcond, hsub]
    · intro hall
      have hlt : maxGIDOf (f0 :: rest) < font.maxp.numGlyphs := by
        rcases foldlMax_eq_init_or_mem (f0 :: rest) 0 with h | h
        · unfold maxGIDOf
          rw [h]; omega
        · exact hall _ h
      have hcond : ¬ (maxGIDOf (f0 :: rest) > goSub16 font.maxp.numGlyphs 1) := by
        rw [hsub]; omega
      rcases hres : Font.filterGlyf font (f0 :: rest) with _ | res
      · exfalso
        simp only [Font.filterGlyf, List.head?] at hres
        rw [if_neg hcond] at hres
        exact Option.noConfusion hres
      · rcases res with e | r
        · exfalso
          simp only [Font.filterGlyf, List.head?] at hres
          rw [if_neg hcond] at hres
          simp at hres
        · exact ⟨r, rfl⟩

/-- Witness for C9: requesting glyph `7` from the three-glyph `fontEx` fails
with `GlyphIndexOutOfRange{requested = 7, max = 2}`. -/
theorem filterGlyf_out_of_range_iff_witness :
    fontEx.filterGlyf [0, 7] = some (Except.error
      (SubsetError.glyphIndexOutOfRange 7 2)) := by
  have h := (filterGlyf_out_of_range_iff fontEx [0, 7] (by decide) (by decide)
    (by decide)).1 ⟨7, by decide, by decide⟩
  exact h

/-- C10: calling `FilterGlyf` with an empty filter reads `filter[0]` before
any validation; the embedding's outer `Option` is `none` (Go panics with an
index-out-of-range), so neither a font nor a `SubsetError` is returned and
the `GlyphIndexOutOfRange` branch is unreachable for empty input. -/
theorem filterGlyf_empty_input (font : Font) : font.filterGlyf [] = none := rfl

/-! ## Builder (`builder.go`)

`Builder.Build` first snapshots `b.numTables()` (the size of the record map
copied from the parsed font by `NewBuilder`), then calls
`replaceTableRecord` for exactly the ten tables `Head, Name, Hhea, Maxp,
Hmtx, Cvt, Fpgm, Prep, Loca, Glyf` in that order; each call upserts the
record map and appends `(record, table)` to the `fontWriter`, and
`fontWriter.write` emits the offset table, then the appended records in
append order, then the table bodies in the same order.  Offsets and
checksums inside the records do not affect which records are emitted or
their order, so they are not modeled; table identity is tracked by tag. -/

/-- Embedding of `String2Tag` (structure.go): big-endian packing of the
first four bytes of the name. -/
def string2Tag : List Char → Nat
  | c0 :: c1 :: c2 :: c3 :: _ =>
    c0.toNat * 16777216 + c1.toNat * 65536 + c2.toNat * 256 + c3.toNat
  | _ => 0

/-- Tag of the `head` table. -/
def headTag : Nat := string2Tag ['h', 'e', 'a', 'd']

/-- Tag of the `name` table. -/
def nameTag : Nat := string2Tag ['n', 'a', 'm', 'e']

/-- Tag of the `hhea` table. -/
def hheaTag : Nat := string2Tag ['h', 'h', 'e', 'a']

/-- Tag of the `maxp` table. -/
def maxpTag : Nat := string2Tag ['m', 'a', 'x', 'p']

/-- Tag of the `hmtx` table. -/
def hmtxTag : Nat := string2Tag ['h', 'm', 't', 'x']

/-- Tag of the `cvt ` table (note the trailing space). -/
def cvtTag : Nat := string2Tag ['c', 'v', 't', ' ']

/-- Tag of the `fpgm` table. -/
def fpgmTag : Nat := string2Tag ['f', 'p', 'g', 'm']

/-- Tag of the `prep` table. -/
def prepTag : Nat := string2Tag ['p', 'r', 'e', 'p']

/-- Tag of the `loca` table. -/
def locaTag : Nat := string2Tag ['l', 'o', 'c', 'a']

/-- Tag of the `glyf` table. -/
def glyfTag : Nat := string2Tag ['g', 'l', 'y', 'f']

/-- Tag of the `cmap` table. -/
def cmapTag : Nat := string2Tag ['c', 'm', 'a', 'p']

/-- The ten `replaceTableRecord` calls of `Builder.Build`, in source order. -/
def builderBuildSequence : List Nat :=
  [headTag, nameTag, hheaTag, maxpTag, hmtxTag, cvtTag, fpgmTag, prepTag,
    locaTag, glyfTag]

/-- Go map insert `b.tableRecords[tag] = tr` on the key set. -/
def upsertKey (keys : List Nat) (tag : Nat) : List Nat :=
  if tag ∈ keys then keys else keys ++ [tag]

/-- One `replaceTableRecord` call: upsert the record map and append the
table to the `fontWriter` (state is `(map keys, writer append order)`). -/
def replaceTableRecordStep (st : List Nat × List Nat) (tag : Nat) :
    List Nat × List Nat :=
  (upsertKey st.1 tag, st.2 ++ [tag])

/-- One item of the serialized output stream of `fontWriter.write`. -/
inductive StreamItem where
  | offsetTableItem (numTables : Nat)
  | recordItem (tag : Nat)
  | bodyItem (tag : Nat)
deriving DecidableEq

/-- Result of `Builder.Build`: the `numTables` written into the offset
table, the record tags in emission order, the final record-map keys, and
the output stream layout of `fontWriter.write`. -/
structure BuildOutput where
  numTables : Nat
  recordTags : List Nat
  finalKeys : List Nat
  stream : List StreamItem
deriving DecidableEq

/-- Embedding of `Builder.Build` (builder.go lines 56-102) together with
`fontWriter.write` (lines 138-147), starting from the record-map keys that
`NewBuilder` copied from the parsed font.  `numTables` is computed BEFORE
the ten `replaceTableRecord` calls. -/
def builderBuild (initialRecordKeys : List Nat) : BuildOutput :=
  let numTables := initialRecordKeys.length
  let st := builderBuildSequence.foldl replaceTableRecordStep (initialRecordKeys, [])
  { numTables := numTables
  , recordTags := st.2
  , finalKeys := st.1
  , stream := StreamItem.offsetTableItem numTables ::
      (st.2.map StreamItem.recordItem ++ st.2.map StreamItem.bodyItem) }

/-- Helper: the writer component of the build fold is the call sequence. -/
theorem buildFold_writer (seq : List Nat) :
    ∀ (k w : List Nat), (seq.foldl replaceTableRecordStep (k, w)).2 = w ++ seq := by
  induction seq with
  | nil => intro k w; simp
  | cons t ts ih =>
    intro k w
    simp only [List.foldl_cons, replaceTableRecordStep]
    rw [ih]
    simp

/-- C1: the round-trip law fails for every font carrying a `cmap`.  With
record keys consisting of the ten modeled tables plus `cmap` (any real
parsed font with a character map), `Build` writes `numTables = 11` into the
offset table yet emits only ten table records, none of them `cmap`, while
the stale `cmap` record remains in the builder's record map.  The output
declares one more record than it contains and holds no cmap data, so
re-parsing it cannot yield a font whose cmap equals the original. -/
theorem builderBuild_drops_cmap :
    (builderBuild (builderBuildSequence ++ [cmapTag])).numTables = 11
    ∧ (builderBuild (builderBuildSequence ++ [cmapTag])).recordTags.length = 10
    ∧ cmapTag ∉ (builderBuild (builderBuildSequence ++ [cmapTag])).recordTags
    ∧ cmapTag ∈ (builderBuild (builderBuildSequence ++ [cmapTag])).finalKeys := by
  refine ⟨rfl, rfl, by decide, by decide⟩

/-- Counterexample to C4: emitting a builder whose record keys are the ten
modeled tables, the table records are written in the order `head, name,
hhea, ...`, which is not ASCII-ascending by tag (`name` precedes `hhea` in
the emitted stream but exceeds it as a tag). -/
theorem builderBuild_not_sorted_counterexample :
    ¬ List.Pairwise (fun a b => a ≤ b)
      ((builderBuild builderBuildSequence).recordTags) := by
  decide

/-- C4 as amended: for every set of record keys, the table records are
written immediately after the offset table (followed by the table bodies in
the same order), but in the builder's fixed call order `head, name, hhea,
maxp, hmtx, cvt , fpgm, prep, loca, glyf` - an order that is not
ASCII-ascending by tag. -/
theorem builderBuild_record_order (initialRecordKeys : List Nat) :
    (builderBuild initialRecordKeys).stream =
      StreamItem.offsetTableItem (builderBuild initialRecordKeys).numTables ::
        ((builderBuild initialRecordKeys).recordTags.map StreamItem.recordItem
          ++ (builderBuild initialRecordKeys).recordTags.map StreamItem.bodyItem)
    ∧ (builderBuild initialRecordKeys).recordTags = builderBuildSequence
    ∧ ¬ List.Pairwise (fun a b => a ≤ b) (builderBuild initialRecordKeys).recordTags := by
  have hw : (builderBuild initialRecordKeys).recordTags = builderBuildSequence := by
    show (builderBuildSequence.foldl replaceTableRecordStep (initialRecordKeys, [])).2
      = builderBuildSequence
    rw [buildFold_writer]
    simp
  refine ⟨rfl, hw, ?_⟩
  rw [hw]
  decide

/-! ## Byte-level parsing (`structure.go`, `loca.go`, glyf source, `utility.go`)

A font file is a `List Nat` of bytes; reads are big-endian and fail
(`Option.none`) when they run past the end, as `binary.Read` does. -/

/-- Read one byte. -/
def readByte (file : List Nat) (pos : Nat) : Option Nat :=
  file.get? pos

/-- Read a big-endian `uint16`. -/
def readU16 (file : List Nat) (pos : Nat) : Option Nat :=
  match readByte file pos, readByte file (pos + 1) with
  | some b0, some b1 => some (b0 * 256 + b1)
  | _, _ => none

/-- Read a big-endian `uint32`. -/
def readU32 (file : List Nat) (pos : Nat) : Option Nat :=
  match readU16 file pos, readU16 file (pos + 2) with
  | some w0, some w1 => some (w0 * 65536 + w1)
  | _, _ => none

/-- Read `n` consecutive big-endian `uint16` values. -/
def readU16List (file : List Nat) (pos : Nat) : Nat → Option (List Nat)
  | 0 => some []
  | n + 1 =>
    match readU16 file pos, readU16List file (pos + 2) n with
    | some x, some xs => some (x :: xs)
    | _, _ => none

/-- Read `n` consecutive big-endian `uint32` values. -/
def readU32List (file : List Nat) (pos : Nat) : Nat → Option (List Nat)
  | 0 => some []
  | n + 1 =>
    match readU32 file pos, readU32List file (pos + 4) n with
    | some x, some xs => some (x :: xs)
    | _, _ => none

/-- Read `n` consecutive bytes. -/
def readBytes (file : List Nat) (pos : Nat) : Nat → Option (List Nat)
  | 0 => some []
  | n + 1 =>
    match readByte file pos, readBytes file (pos + 1) n with
    | some x, some xs => some (x :: xs)
    | _, _ => none

theorem readU16List_length (file : List Nat) (n : Nat) :
    ∀ (pos : Nat) (xs : List Nat), readU16List file pos n = some xs → xs.length = n := by
  induction n with
  | zero =>
    intro pos xs h
    simp only [readU16List, Option.some.injEq] at h
    simp [← h]
  | succ n ih =>
    intro pos xs h
    simp only [readU16List] at h
    rcases h1 : readU16 file pos with _ | x <;> rw [h1] at h
    · exact absurd h (by simp)
    · rcases h2 : readU16List file (pos + 2) n with _ | rest <;> rw [h2] at h
      · exact absurd h (by simp)
      · simp only [Option.some.injEq] at h
        rw [← h]
        simp [ih _ _ h2]

theorem readU32List_length (file : List Nat) (n : Nat) :
    ∀ (pos : Nat) (xs : List Nat), readU32List file pos n = some xs → xs.length = n := by
  induction n with
  | zero =>
    intro pos xs h
    simp only [readU32List, Option.some.injEq] at h
    simp [← h]
  | succ n ih =>
    intro pos xs h
    simp only [readU32List] at h
    rcases h1 : readU32 file pos with _ | x <;> rw [h1] at h
    · exact absurd h (by simp)
    · rcases h2 : readU32List file (pos + 4) n with _ | rest <;> rw [h2] at h
      · exact absurd h (by simp)
      · simp only [Option.some.injEq] at h
        rw [← h]
        simp [ih _ _ h2]

/-- Go `uint32` subtraction `a - b` (wrapping), used for `last - first` in
`parseGlyf`. -/
def goSub32 (a b : Nat) : Nat := (a % u32Mod + u32Mod - b % u32Mod) % u32Mod

/-- Embedding of `parseLoca` (loca.go lines 42-59).  The element count is
`numGlyphs + 1` computed in `uint16` arithmetic (`size := numGlyphs + 1`
with both operands `uint16`), so it wraps to `0` when `numGlyphs = 0xFFFF`. -/
def parseLoca (file : List Nat) (offset : Nat) (numGlyphs : Nat)
    (indexToLocFormat : Int) : Option Loca :=
  let size := (numGlyphs + 1) % u16Mod
  if indexToLocFormat == 0 then
    match readU16List file offset size with
    | some xs => some ⟨indexToLocFormat, xs, []⟩
    | none => none
  else
    match readU32List file offset size with
    | some xs => some ⟨indexToLocFormat, [], xs⟩
    | none => none

/-- The slice loop of `parseGlyf`: one iteration per loca entry (`i` from
`0` to `l.Len()-1`), reading `last - first` bytes sequentially from the
cursor, where `last` is the glyf record length for the final index and
`l.Get(i+1)` otherwise. -/
def parseGlyfSlices (file : List Nat) (l : Loca) (length : Nat) :
    Nat → Nat → Nat → Option (List (List Nat))
  | 0, _, _ => some []
  | n + 1, i, pos =>
    let first := l.get i
    let last := if i ≥ l.len - 1 then length else l.get (i + 1)
    let sl := goSub32 last first
    match readBytes file pos sl, parseGlyfSlices file l length n (i + 1) (pos + sl) with
    | some d, some rest => some (d :: rest)
    | _, _ => none

/-- Embedding of `parseGlyf` (glyf source file lines 14-37): allocates
`l.Len()` slices - one per loca entry - and fills each in turn. -/
def parseGlyf (file : List Nat) (offset : Nat) (length : Nat) (l : Loca) :
    Option Glyf :=
  match parseGlyfSlices file l length l.len 0 offset with
  | some ds => some ⟨ds⟩
  | none => none

theorem parseGlyfSlices_length (file : List Nat) (l : Loca) (length : Nat) (n : Nat) :
    ∀ (i pos : Nat) (ds : List (List Nat)),
      parseGlyfSlices file l length n i pos = some ds → ds.length = n := by
  induction n with
  | zero =>
    intro i pos ds h
    simp only [parseGlyfSlices, Option.some.injEq] at h
    simp [← h]
  | succ n ih =>
    intro i pos ds h
    simp only [parseGlyfSlices] at h
    rcases h1 : readBytes file pos (goSub32 (if i ≥ l.len - 1 then length else l.get (i + 1)) (l.get i)) with _ | d <;> rw [h1] at h
    · exact absurd h (by simp)
    · rcases h2 : parseGlyfSlices file l length n (i + 1)
          (pos + goSub32 (if i ≥ l.len - 1 then length else l.get (i + 1)) (l.get i)) with _ | rest <;> rw [h2] at h
      · exact absurd h (by simp)
      · simp only [Option.some.injEq] at h
        rw [← h]
        simp [ih _ _ _ h2]

/-- Counterexample to C2 at two concrete parses.  First, a font with
`maxp.numGlyphs = 1` (`N = 1`): the parsed short loca `[0, 3]` has the
expected `N + 1 = 2` entries, but `parseGlyf` then produces `2` per-glyph
slices - one per loca entry, the last spanning `[loca.get(N), length)` -
not the `N = 1` slices the claim states.  Second, `N = 0xFFFF`: the `uint16`
expression `numGlyphs + 1` wraps to `0`, so the parsed loca has `0` entries,
not `N + 1 = 65536`. -/
theorem parse_glyf_loca_counts_counterexample :
    parseLoca [0, 0, 0, 3] 0 1 0 = some ⟨0, [0, 3], []⟩
    ∧ parseGlyf [9, 8, 7, 6, 5, 4] 0 6 ⟨0, [0, 3], []⟩
        = some ⟨[[9, 8, 7, 6, 5, 4], []]⟩
    ∧ (Glyf.mk [[9, 8, 7, 6, 5, 4], []]).data.length = 2 ∧ (2 : Nat) ≠ 1
    ∧ parseLoca [] 0 65535 0 = some ⟨0, [], []⟩
    ∧ (Loca.mk 0 [] []).len = 0 ∧ (0 : Nat) ≠ 65536 := by
  refine ⟨rfl, rfl, rfl, by decide, rfl, rfl, by decide⟩

/-- C2 as amended: for every parsed font with `N = maxp.numGlyphs`, the
parsed loca holds `(N + 1) mod 2^16` entries - exactly `N + 1` whenever
`N < 0xFFFF` - and the parsed glyf holds exactly one byte slice per loca
entry (so `N + 1` slices for `N < 0xFFFF`), the extra final slice spanning
from `loca.get(N)` to the glyf record length. -/
theorem parse_glyf_loca_counts :
    (∀ (file : List Nat) (offset numGlyphs : Nat) (fmt : Int) (l : Loca),
      numGlyphs < 65535 → parseLoca file offset numGlyphs fmt = some l →
      l.len = numGlyphs + 1)
    ∧ (∀ (file : List Nat) (offset length : Nat) (l : Loca) (g : Glyf),
      parseGlyf file offset length l = some g → g.data.length = l.len) := by
  constructor
  · intro file offset numGlyphs fmt l h65 hp
    have hsize : (numGlyphs + 1) % u16Mod = numGlyphs + 1 := by
      unfold u16Mod; omega
    simp only [parseLoca, hsize] at hp
    by_cases hfmt : fmt == 0
    · rw [if_pos hfmt] at hp
      rcases h1 : readU16List file offset (numGlyphs + 1) with _ | xs <;> rw [h1] at hp
      · exact absurd hp (by simp)
      · simp only [Option.some.injEq] at hp
        rw [← hp]
        unfold Loca.len Loca.isShort
        rw [if_pos hfmt]
        exact readU16List_length file _ _ _ h1
    · rw [if_neg hfmt] at hp
      rcases h1 : readU32List file offset (numGlyphs + 1) with _ | xs <;> rw [h1] at hp
      · exact absurd hp (by simp)
      · simp only [Option.some.injEq] at hp
        rw [← hp]
        unfold Loca.len Loca.isShort
        rw [if_neg hfmt]
        exact readU32List_length file _ _ _ h1
  · intro file offset length l g hp
    simp only [parseGlyf] at hp
    rcases h1 : parseGlyfSlices file l length l.len 0 offset with _ | ds <;> rw [h1] at hp
    · exact absurd hp (by simp)
    · simp only [Option.some.injEq] at hp
      rw [← hp]
      exact parseGlyfSlices_length file l length _ _ _ _ h1

/-- Witness for the amended C2: the concrete `N = 1` parse yields a loca of
`2` entries and a glyf of `2` slices (`= l.len`). -/
theorem parse_glyf_loca_counts_witness :
    (Loca.mk 0 [0, 3] []).len = 2
    ∧ (Glyf.mk [[9, 8, 7, 6, 5, 4], []]).data.length = (Loca.mk 0 [0, 3] []).len := by
  constructor
  · exact parse_glyf_loca_counts.1 [0, 0, 0, 3] 0 1 0 ⟨0, [0, 3], []⟩ (by decide) rfl
  · exact parse_glyf_loca_counts.2 [9, 8, 7, 6, 5, 4] 0 6 ⟨0, [0, 3], []⟩
      ⟨[[9, 8, 7, 6, 5, 4], []]⟩ rfl

/-! ## Table-record validation and error aggregation
(`structure.go` `parseTableRecord` / `TableRecord.validate` / `calcCheckSum`,
`utility.go` `optionalFontParser`, `font.go` `parseOpenTypeTable`) -/

/-- Embedding of `OffsetTable` as read from the first 12 bytes. -/
structure OffsetTable where
  sfntVersion : Nat
  numTables : Nat
  searchRange : Nat
  entrySelector : Nat
  rangeShift : Nat
deriving DecidableEq

/-- Embedding of `parseOffsetTable` (structure.go). -/
def parseOffsetTable (file : List Nat) : Option OffsetTable :=
  match readU32 file 0, readU16 file 4, readU16 file 6, readU16 file 8,
      readU16 file 10 with
  | some v, some n, some sr, some es, some rs => some ⟨v, n, sr, es, rs⟩
  | _, _, _, _, _ => none

/-- Embedding of `TableRecord` (structure.go). -/
structure TableRecord where
  tag : Nat
  checkSum : Nat
  offset : Nat
  length : Nat
deriving DecidableEq

/-- Embedding of `padBlocks` (structure.go): number of `uint32` words of a
length rounded up to four bytes. -/
def padBlocks (length : Nat) : Nat :=
  if length % 4 = 0 then length / 4 else length / 4 + 1

/-- Embedding of `padLength` (structure.go). -/
def padLength (length : Nat) : Nat := padBlocks length * 4

/-- Embedding of `calcCheckSum` (structure.go): the `uint32` wrapping sum
of `padBlocks(length)` big-endian words read from `offset`; `none` when the
read runs past the end of the file, as `binary.Read` errors. -/
def calcCheckSum (file : List Nat) (offset : Nat) (length : Nat) : Option Nat :=
  match readU32List file offset (padBlocks length) with
  | some ws => some (ws.foldl (fun acc w => (acc + w) % u32Mod) 0)
  | none => none

/-- Possible fatal errors of the record-parsing stage. -/
inductive ParseErr where
  | ioError
  | checksumMismatch (tag : Nat) (expected : Nat) (actual : Nat)
  | readFailure (tag : Nat)
deriving DecidableEq

/-- Embedding of `TableRecord.validate` (structure.go lines 158-172): the
`head` record is skipped; any other record's recomputed checksum must equal
the stored one.  When `calcCheckSum` cannot read its words Go compares the
partially filled sum against the stored checksum and reports through the
same error variable; no theorem below depends on that branch, which the
embedding reports as `readFailure`. -/
def validateRecord (file : List Nat) (tr : TableRecord) : Option ParseErr :=
  if tr.tag = headTag then none
  else
    match calcCheckSum file tr.offset tr.length with
    | some cs =>
      if cs = tr.checkSum then none
      else some (ParseErr.checksumMismatch tr.tag tr.checkSum cs)
    | none => some (ParseErr.readFailure tr.tag)

/-- Go map insert `trs[tr.Tag.String()] = tr` keyed by tag. -/
def upsertRecord (recs : List TableRecord) (tr : TableRecord) : List TableRecord :=
  if recs.any (fun r => r.tag = tr.tag) then
    recs.map (fun r => if r.tag = tr.tag then tr else r)
  else recs ++ [tr]

/-- The record-reading loop of `parseTableRecord`: `numTables` records of
16 bytes each, starting right after the 12-byte offset table. -/
def readTableRecords (file : List Nat) :
    Nat → Nat → List TableRecord → Option (List TableRecord)
  | 0, _, acc => some acc
  | n + 1, pos, acc =>
    match readU32 file pos, readU32 file (pos + 4), readU32 file (pos + 8),
        readU32 file (pos + 12) with
    | some tg, some cs, some off, some len =>
      readTableRecords file n (pos + 16) (upsertRecord acc ⟨tg, cs, off, len⟩)
    | _, _, _, _ => none

/-- The validation loop of `parseTableRecord`: Go iterates the record map
(in unspecified order) and returns on the first failing `validate`.  The
embedding fixes insertion order; whether some error is returned does not
depend on the order. -/
def firstValidationErr (file : List Nat) : List TableRecord → Option ParseErr
  | [] => none
  | r :: rs =>
    match validateRecord file r with
    | some e => some e
    | none => firstValidationErr file rs

/-- Embedding of `parseTableRecord` (structure.go lines 120-137): read all
records, then validate every record's checksum, failing the whole stage on
the first mismatch. -/
def parseTableRecord (file : List Nat) (numTables : Nat) :
    Except ParseErr (List TableRecord) :=
  match readTableRecords file numTables 12 [] with
  | none => Except.error ParseErr.ioError
  | some recs =>
    match firstValidationErr file recs with
    | some e => Except.error e
    | none => Except.ok recs

/-- One aggregated failure of the optional-table stage. -/
inductive TableFailure where
  | recordNotFound (tag : Nat)
  | bodyFailed (tag : Nat)
deriving DecidableEq

/-- Embedding of `optionalFontParser` (utility.go lines 96-115): the table
records plus the accumulated error list. -/
structure OptionalFontParser where
  tableRecords : List TableRecord
  errs : List TableFailure

/-- Lookup of a table record by tag. -/
def findRecord : List TableRecord → Nat → Option TableRecord
  | [], _ => none
  | r :: rs, tag => if r.tag = tag then some r else findRecord rs tag

/-- Embedding of `optionalFontParser.parse`: a missing record is an error
only for non-optional tables; a failing body parser appends to the error
list and parsing continues (the body parser's outcome is passed as data,
as `parseOpenTypeTable` passes its closures). -/
def OptionalFontParser.parse (p : OptionalFontParser) (tag : Nat)
    (optional : Bool) (bodyOk : TableRecord → Bool) : OptionalFontParser :=
  match findRecord p.tableRecords tag with
  | none =>
    if optional then p
    else ⟨p.tableRecords, p.errs ++ [TableFailure.recordNotFound tag]⟩
  | some tr =>
    if bodyOk tr then p else ⟨p.tableRecords, p.errs ++ [TableFailure.bodyFailed tag]⟩

/-- The `p.parse` calls of `parseOpenTypeTable` followed by those of the
`parseTrueTypeFont` callback, with their `optional` flags, in source order. -/
def trueTypeParseSequence : List (Nat × Bool) :=
  [(nameTag, false), (headTag, false), (hheaTag, false), (maxpTag, false),
    (hmtxTag, false), (cmapTag, true), (cvtTag, true), (fpgmTag, true),
    (prepTag, true), (locaTag, false), (glyfTag, false)]

/-- Embedding of `parseOpenTypeTable` (font.go lines 84-125) for the
TrueType path: parse the offset table, then the table records (with
checksum validation - a failure there aborts the whole parse), then run the
optional-table steps, returning the aggregated failure list (`p.err()` is
an error exactly when that list is non-empty). -/
def parseOpenTypeTable (file : List Nat) (bodyOk : Nat → TableRecord → Bool) :
    Except ParseErr (List TableFailure) :=
  match parseOffsetTable file with
  | none => Except.error ParseErr.ioError
  | some ot =>
    match parseTableRecord file ot.numTables with
    | Except.error e => Except.error e
    | Except.ok recs =>
      Except.ok
        ((trueTypeParseSequence.foldl
          (fun (p : OptionalFontParser) (tb : Nat × Bool) =>
            p.parse tb.1 tb.2 (bodyOk tb.1)) ⟨recs, []⟩).errs)

/-- A 32-byte font file whose single table record is the OPTIONAL `cvt `
table with stored checksum `999`, while its 4-byte body `[1,2,3,4]`
has checksum `0x01020304 = 16909060`. -/
def cvtBadFile : List Nat :=
  [0, 1, 0, 0, 0, 1, 0, 16, 0, 0, 0, 0,
   99, 118, 116, 32, 0, 0, 3, 231, 0, 0, 0, 28, 0, 0, 0, 4,
   1, 2, 3, 4]

/-- The same file with the correct stored checksum `16909060`. -/
def cvtGoodFile : List Nat :=
  [0, 1, 0, 0, 0, 1, 0, 16, 0, 0, 0, 0,
   99, 118, 116, 32, 1, 2, 3, 4, 0, 0, 0, 28, 0, 0, 0, 4,
   1, 2, 3, 4]

/-- Counterexample to C5: a checksum mismatch on the OPTIONAL `cvt ` table
does not drop the table and aggregate the failure - it makes the whole
parse fail with the fatal checksum error from record validation, before any
table is parsed (the claim predicts an `Except.ok` carrying the aggregated
failure list). -/
theorem parse_optional_checksum_counterexample :
    parseOpenTypeTable cvtBadFile (fun _ _ => true) =
      Except.error (ParseErr.checksumMismatch cvtTag 999 16909060) := by
  rfl

/-- Helper: if the validation loop reports no error, every record passes
`validate`. -/
theorem firstValidationErr_none (file : List Nat) :
    ∀ (recs : List TableRecord), firstValidationErr file recs = none →
      ∀ r ∈ recs, validateRecord file r = none := by
  intro recs
  induction recs with
  | nil => intro _ r hr; simp at hr
  | cons x xs ih =>
    intro h r hr
    simp only [firstValidationErr] at h
    rcases hv : validateRecord file x with _ | e <;> rw [hv] at h
    · rcases List.mem_cons.mp hr with h1 | h1
      · rw [h1]; exact hv
      · exact ih h r h1
    · exact absurd h (by simp)

/-- C5 as amended: a checksum mismatch on ANY table other than `head` -
required or optional - is fatal: (a) if the record stage succeeds, every
non-`head` record's recomputed checksum equals its stored checksum, and
(b) a record-stage failure is returned as the whole parse's error, before
any table is parsed or any failure is aggregated.  The aggregated error of
`optionalFontParser` covers table-body failures and missing required
records, not checksums (`head`'s record checksum is not validated at this
stage; `parseHead` checks it separately). -/
theorem parse_checksum_fatal :
    (∀ (file : List Nat) (n : Nat) (recs : List TableRecord) (tr : TableRecord),
      parseTableRecord file n = Except.ok recs → tr ∈ recs → tr.tag ≠ headTag →
      calcCheckSum file tr.offset tr.length = some tr.checkSum)
    ∧ (∀ (file : List Nat) (ot : OffsetTable) (e : ParseErr)
        (bodyOk : Nat → TableRecord → Bool),
      parseOffsetTable file = some ot →
      parseTableRecord file ot.numTables = Except.error e →
      parseOpenTypeTable file bodyOk = Except.error e) := by
  constructor
  · intro file n recs tr hok htr hhead
    unfold parseTableRecord at hok
    split at hok
    · exact absurd hok (by simp)
    · split at hok
      · exact absurd hok (by simp)
      · rename_i h2
        simp only [Except.ok.injEq] at hok
        subst hok
        have hv := firstValidationErr_none file _ h2 tr htr
        unfold validateRecord at hv
        rw [if_neg hhead] at hv
        split at hv
        · rename_i cs h3
          by_cases hcs : cs = tr.checkSum
          · rw [h3, hcs]
          · rw [if_neg hcs] at hv
            exact absurd hv (by simp)
        · exact absurd hv (by simp)
  · intro file ot e bodyOk hot herr
    simp only [parseOpenTypeTable, hot, herr]

/-- Witness for the amended C5: on the concrete one-record file with a
correct `cvt ` checksum the record stage succeeds and part (a) yields the
checksum equation; on `cvtBadFile` part (b) yields the fatal error. -/
theorem parse_checksum_fatal_witness :
    calcCheckSum cvtGoodFile 28 4 = some 16909060
    ∧ parseOpenTypeTable cvtBadFile (fun _ _ => false) =
        Except.error (ParseErr.checksumMismatch cvtTag 999 16909060) := by
  constructor
  · exact parse_checksum_fatal.1 cvtGoodFile 1 [⟨cvtTag, 16909060, 28, 4⟩]
      ⟨cvtTag, 16909060, 28, 4⟩ rfl (by decide) (by decide)
  · exact parse_checksum_fatal.2 cvtBadFile ⟨65536, 1, 16, 0, 0⟩
      (ParseErr.checksumMismatch cvtTag 999 16909060) (fun _ _ => false) rfl rfl

end OpenTypeSpec
